import Mathlib

/-!
Shallow embedding of `src/context_glyphdata/core.py` from the
context-glyphdata repository, together with theorems settling the
specification's claims about `glyph_data_for_unicode`.

The external Unicode Character Database lookup (`youseedee.ucd_data`) is an
input here: the embedded function takes the looked-up record (a key/value
list, `none` when the provider has no record) as an explicit argument.
Python string operations are modelled on the ASCII range, which covers every
string the program manipulates (Unicode character names and the static
tables are ASCII).
-/

namespace ContextGlyphData

/-! ### Models of the Python string primitives used by core.py -/

/-- ASCII upper-case letter test (code points 65–90). -/
def upperAZ (c : Char) : Bool := 65 ≤ c.toNat && c.toNat ≤ 90

/-- ASCII lower-case letter test (code points 97–122). -/
def lowerAZ (c : Char) : Bool := 97 ≤ c.toNat && c.toNat ≤ 122

/-- ASCII digit test (code points 48–57). -/
def digit09 (c : Char) : Bool := 48 ≤ c.toNat && c.toNat ≤ 57

/-- Model of Python `str.isalpha` for one character (ASCII range). -/
def pyIsAlphaChar (c : Char) : Bool := upperAZ c || lowerAZ c

/-- Model of Python lower-casing of one character (ASCII range). -/
def pyLowerChar (c : Char) : Char :=
  if upperAZ c then Char.ofNat (c.toNat + 32) else c

/-- Model of Python upper-casing of one character (ASCII range). -/
def pyUpperChar (c : Char) : Char :=
  if lowerAZ c then Char.ofNat (c.toNat - 32) else c

/-- Model of Python `str.lower`. -/
def pyLower (s : String) : String := String.mk (s.data.map pyLowerChar)

/-- Model of Python `str.capitalize`: first character upper-cased, the rest
lower-cased. -/
def pyCapitalize (s : String) : String :=
  match s.data with
  | [] => ""
  | c :: cs => String.mk (pyUpperChar c :: cs.map pyLowerChar)

/-- Model of Python `str.isupper` (ASCII): at least one cased character and
no lower-case one. -/
def pyIsUpper (s : String) : Bool :=
  s.data.any pyIsAlphaChar && s.data.all (fun c => !(lowerAZ c))

/-- Python whitespace characters recognised by `str.split()`. -/
def pyIsSpace (c : Char) : Bool :=
  c = ' ' || c = '\t' || c = '\n' || c = '\x0b' || c = '\x0c' || c = '\r'

/-- Helper for `pySplit`: splits a character list on whitespace runs,
accumulating the current (reversed) token. -/
def splitWsAux : List Char → List Char → List (List Char)
  | [], cur => if cur.isEmpty then [] else [cur.reverse]
  | c :: cs, cur =>
    if pyIsSpace c then
      if cur.isEmpty then splitWsAux cs [] else cur.reverse :: splitWsAux cs []
    else splitWsAux cs (c :: cur)

/-- Model of Python `str.split()` (no argument: split on whitespace runs,
dropping empty tokens). -/
def pySplit (s : String) : List String := (splitWsAux s.data []).map String.mk

/-- Helper for Python `str.split("-")`: splits at every hyphen, keeping
empty pieces, exactly as Python does. -/
def splitHyphenAux : List Char → List Char → List (List Char)
  | [], cur => [cur.reverse]
  | c :: cs, cur =>
    if c = '-' then cur.reverse :: splitHyphenAux cs []
    else splitHyphenAux cs (c :: cur)

/-- Helper for `pyIn`: substring search on character lists. -/
def subInAux (needle : List Char) : List Char → Bool
  | [] => needle.isEmpty
  | c :: cs => needle.isPrefixOf (c :: cs) || subInAux needle cs

/-- Model of the Python substring test `sub in s`. -/
def pyIn (sub s : String) : Bool := subInAux sub.data s.data

/-- Model of Python `str.endswith`. -/
def pyEndsWith (s t : String) : Bool := t.data.isSuffixOf s.data

/-- Upper-case hexadecimal digit for a value below 16. -/
def hexDigitChar (n : Nat) : Char :=
  if n < 10 then Char.ofNat (48 + n) else Char.ofNat (55 + n)

/-- Fuel-driven conversion to upper-case hexadecimal digits (most
significant first). `n + 1` fuel always suffices since `n / 16 < n`. -/
def hexDigitsAux : Nat → Nat → List Char
  | 0, _ => []
  | fuel + 1, n =>
    if n < 16 then [hexDigitChar n]
    else hexDigitsAux fuel (n / 16) ++ [hexDigitChar (n % 16)]

/-- Upper-case hexadecimal digits of `n`. -/
def hexDigits (n : Nat) : List Char := hexDigitsAux (n + 1) n

/-- Model of the Python format `04X`: upper-case hexadecimal, zero-padded on
the left to a width of at least 4. -/
def pyHexUpper4 (n : Nat) : String :=
  String.mk (List.replicate (4 - (hexDigits n).length) '0' ++ hexDigits n)

/-! ### The static tables of core.py -/

/-- core.py lines 9–102: the `SCRIPT_SUFFIXES` dict, in source order
(Python dicts preserve insertion order, which the stable sort below
relies on). -/
def SCRIPT_SUFFIXES : List (String × String) :=
  [("ARABIC", "-ar"),
   ("LATIN", "-lat"),
   ("GREEK", "-gr"),
   ("CYRILLIC", "-cyr"),
   ("HEBREW", "-heb"),
   ("ARMENIAN", "-arm"),
   ("DEVANAGARI", "-dev"),
   ("BENGALI", "-ben"),
   ("GURMUKHI", "-gur"),
   ("GUJARATI", "-guj"),
   ("ORIYA", "-ori"),
   ("TAMIL", "-tam"),
   ("TELUGU", "-tel"),
   ("KANNADA", "-kan"),
   ("MALAYALAM", "-mal"),
   ("SINHALA", "-sin"),
   ("GRANTHA", "-gran"),
   ("BRAHMI", "-brah"),
   ("KAITHI", "-kthi"),
   ("SHARADA", "-shrd"),
   ("BHAIKSUKI", "-bhks"),
   ("KHUDAWADI", "-sind"),
   ("THAI", "-th"),
   ("LAO", "-lao"),
   ("MYANMAR", "-mya"),
   ("KHMER", "-khm"),
   ("JAVANESE", "-java"),
   ("BALINESE", "-bali"),
   ("CHAM", "-cham"),
   ("TIBETAN", "-tib"),
   ("LEPCHA", "-lepc"),
   ("LIMBU", "-limb"),
   ("HAN", "-han"),
   ("HANGUL", "-ko"),
   ("HIRAGANA", "-hira"),
   ("KATAKANA", "-kata"),
   ("BOPOMOFO", "-bop"),
   ("YI", "-yi"),
   ("ETHIOPIC", "-eth"),
   ("VAI", "-vai"),
   ("BAMUM", "-bam"),
   ("ADLAM", "-adlm"),
   ("NKO", "-nko"),
   ("TIFINAGH", "-tfng"),
   ("OSMANYA", "-osma"),
   ("CHEROKEE", "-chr"),
   ("CANADIAN", "-can"),
   ("DESERET", "-dsrt"),
   ("OSAGE", "-osge"),
   ("MONGOLIAN", "-mon"),
   ("PHAGS-PA", "-phag"),
   ("GEORGIAN", "-geo"),
   ("GLAGOLITIC", "-glag"),
   ("COPTIC", "-cop"),
   ("OGHAM", "-ogh"),
   ("RUNIC", "-run"),
   ("GOTHIC", "-goth"),
   ("CUNEIFORM", "-xsux"),
   ("EGYPTIAN", "-egy"),
   ("ANATOLIAN", "-hluw"),
   ("LINEAR", "-lin"),
   ("CYPRIOT", "-cprt"),
   ("PHOENICIAN", "-phnx"),
   ("ARAMAIC", "-arc"),
   ("AVESTAN", "-avst"),
   ("UGARITIC", "-ugar"),
   ("DUPLOYAN", "-dupl"),
   ("MENDE", "-men"),
   ("MIAO", "-plrd"),
   ("SAURASHTRA", "-saur"),
   ("HENTAIGANA", "-hent"),
   ("MASARAM", "-gonm"),
   ("GUNJALA", "-gong"),
   ("CYPRO-MINOAN", "-cpmn"),
   ("TANGUT", "-tang"),
   ("NUSHU", "-nshu"),
   ("CAUCASIAN ALBANIAN", "-aghb"),
   ("MRO", "-mroo"),
   ("TAI", "-tai"),
   ("OLD", "-old")]

/-- core.py lines 105–124: `DROP_CATEGORIES`. -/
def DROP_CATEGORIES : List String :=
  ["LETTER", "MARK", "NUMBER", "PUNCTUATION", "SYMBOL", "SEPARATOR", "DIGIT",
   "SIGN", "LIGATURE", "SYLLABLE", "RADICAL", "IDEOGRAPH", "CHARACTER",
   "ACCENT", "SUNG"]

/-- core.py lines 127–130: `CASE_INDICATORS`. -/
def CASE_INDICATORS : List String := ["CAPITAL", "SMALL"]

/-! ### The name-transduction pipeline (core.py lines 133–483)

The Python function is a single sequential body rebinding the local
`parts`; it is embedded here as one named definition per stage, applied in
the same order.  Stages `parts0` … `finalParts` track the successive values
of the Python local `parts`; the flag definitions track the Python local
flags, each computed from the same stage value as in the source. -/

/-- Stable insertion for a descending sort by a numeric key: an element is
placed after every element whose key is greater than or equal to its own,
matching the stability of Python `sorted(..., reverse=True)`. -/
def insertDesc {α : Type} (key : α → Nat) (a : α) : List α → List α
  | [] => [a]
  | b :: bs => if key b < key a then a :: b :: bs else b :: insertDesc key a bs

/-- Stable descending sort by a numeric key (insertion sort). -/
def sortDescBy {α : Type} (key : α → Nat) (l : List α) : List α :=
  l.foldl (fun acc a => insertDesc key a acc) []

/-- Sort key of core.py line 170: number of words of the script name. -/
def wordCountKey (e : String × String) : Nat := (pySplit e.1).length

/-- core.py lines 169–171: `sorted_scripts`, the suffix table sorted by word
count descending (stable). -/
def sortedScripts : List (String × String) := sortDescBy wordCountKey SCRIPT_SUFFIXES

/-- core.py line 157: `parts = name.split()`. -/
def parts0 (name : String) : List String := pySplit name

/-- core.py line 160: `is_capital = "CAPITAL" in parts`. -/
def isCapitalFlag (name : String) : Bool := (parts0 name).contains "CAPITAL"

/-- core.py lines 173–180: the first entry of `sorted_scripts` whose words
are a prefix of `parts` (the loop with `break`). -/
def detectScript (parts : List String) : Option (String × String) :=
  sortedScripts.find? (fun e => (pySplit e.1).isPrefixOf parts)

/-- The `script_suffix` resulting from the detection loop ("" when no script
matches). -/
def scriptSuffixP (parts : List String) : String :=
  match detectScript parts with
  | some e => e.2
  | none => ""

/-- The `script_words_to_remove` resulting from the detection loop. -/
def scriptWordsToRemoveP (parts : List String) : List String :=
  match detectScript parts with
  | some e => pySplit e.1
  | none => []

/-- `script_suffix` as a function of the raw name. -/
def scriptSuffixOf (name : String) : String := scriptSuffixP (parts0 name)

/-- core.py lines 183–186: for each word, remove all its occurrences from
`parts`. -/
def removeWords (ws ps : List String) : List String :=
  ws.foldl (fun acc w => acc.filter (fun p => p != w)) ps

/-- `parts` after script-word removal (core.py line 186). -/
def parts1 (name : String) : List String :=
  removeWords (scriptWordsToRemoveP (parts0 name)) (parts0 name)

/-- core.py line 190. -/
def isSmallVariant (name : String) : Bool :=
  (parts1 name).contains "SMALL" && scriptSuffixOf name == ""

/-- core.py line 191. -/
def isSymbolFor (name : String) : Bool :=
  (parts1 name).contains "SYMBOL" && (parts1 name).contains "FOR"

/-- core.py line 192. -/
def isPunctuationVariant (name : String) : Bool :=
  (parts1 name).contains "PUNCTUATION" && scriptSuffixOf name == ""

/-- core.py line 193. -/
def isSmallCapital (name : String) : Bool :=
  (parts1 name).contains "SMALL" && (parts1 name).contains "CAPITAL"

/-- core.py line 194. -/
def isSymbolVariant (name : String) : Bool :=
  (parts1 name).contains "SYMBOL" && scriptSuffixOf name != ""

/-- core.py line 195. -/
def isAccentVariant (name : String) : Bool :=
  (parts1 name).contains "ACCENT" && scriptSuffixOf name != ""

/-- core.py line 196. -/
def isPunctuationScriptVariant (name : String) : Bool :=
  (parts1 name).contains "PUNCTUATION" && scriptSuffixOf name != ""

/-- core.py lines 200–206. -/
def isSmallScriptVariant (name : String) : Bool :=
  (parts1 name).contains "SMALL" && scriptSuffixOf name != "" &&
    !((parts1 name).contains "CAPITAL") && !((parts1 name).contains "LETTER") &&
    !((parts1 name).contains "LIGATURE")

/-- core.py line 212. -/
def hasSyllable (name : String) : Bool :=
  (parts1 name).contains "SYLLABLE" || (parts1 name).contains "SYLLABICS"

/-- core.py lines 250–261: `scripts_with_case`. -/
def scriptsWithCase : List String :=
  ["-lat", "-gr", "-cyr", "-geo", "-glag", "-cop", "-arm", "-chr", "-limb", "-phag"]

/-- core.py lines 262–267: `has_case_indicator` (with the Hiragana/Katakana
override). -/
def hasCaseIndicator (name : String) : Bool :=
  let base := (parts1 name).contains "SMALL" || (parts1 name).contains "CAPITAL"
  if scriptSuffixOf name == "-hira" || scriptSuffixOf name == "-kata" then true else base

/-- core.py lines 215–293: the `parts_to_keep` set (modelled as a list; only
membership is ever used). -/
def keepSet (name : String) : List String :=
  let parts := parts1 name
  let script_suffix := scriptSuffixOf name
  let keep : List String := []
  let keep := if isSmallVariant name || isSmallCapital name || isSmallScriptVariant name then
    "SMALL" :: keep else keep
  let keep := if isSymbolFor name || isSymbolVariant name then "SYMBOL" :: keep else keep
  let keep := if script_suffix == "" && parts.contains "SYMBOL" then "SYMBOL" :: keep else keep
  let keep := if isPunctuationVariant name || isPunctuationScriptVariant name then
    "PUNCTUATION" :: keep else keep
  let keep := if isAccentVariant name then "ACCENT" :: keep else keep
  let keep := if parts.contains "RADICAL" then "RADICAL" :: keep else keep
  let keep := if parts.contains "NUMBER" then "NUMBER" :: keep else keep
  let keep := if parts.contains "DIGIT" then "DIGIT" :: keep else keep
  let keep := if parts.contains "IDEOGRAPH" then "IDEOGRAPH" :: keep else keep
  let keep := if parts.contains "MARK" && !(parts.contains "LETTER") then "MARK" :: keep else keep
  let keep := if script_suffix != "" && parts.contains "VOWEL" then "SIGN" :: keep else keep
  let keep := if script_suffix != "" && parts.contains "SIGN" && script_suffix == "-tai" then
    "SIGN" :: keep else keep
  let keep := if script_suffix != "" && parts.contains "MARK" &&
      (pyIn "LETTER" name || pyIn "SIGN" name) then "MARK" :: keep else keep
  let keep := if script_suffix == "" && parts.contains "SIGN" then "SIGN" :: keep else keep
  keep

/-- core.py lines 242–288: `letter_suffix` (assigned in two places with the
same guard; both are reproduced). -/
def letterSuffixOf (name : String) : String :=
  let parts := parts1 name
  let s := scriptSuffixOf name
  let ls := if s != "" && parts.contains "LETTER" && !(hasCaseIndicator name) &&
      scriptsWithCase.contains s then "Letter" else ""
  let markCond := s != "" && parts.contains "MARK" && (pyIn "LETTER" name || pyIn "SIGN" name)
  if markCond && parts.contains "LETTER" && !(hasCaseIndicator name) &&
      scriptsWithCase.contains s then "Letter" else ls

/-- core.py lines 299–306: `syllable_suffix`. -/
def syllableSuffixOf (name : String) : String :=
  if (parts1 name).contains "SYLLABLE" then "Syllable"
  else if (parts1 name).contains "SYLLABICS" then "Syllabics"
  else ""

/-- core.py line 306: removal of `SYLLABICS` in the `elif` branch. -/
def parts2 (name : String) : List String :=
  if !((parts1 name).contains "SYLLABLE") && (parts1 name).contains "SYLLABICS" then
    (parts1 name).filter (fun p => p != "SYLLABICS")
  else parts1 name

/-- core.py line 308: drop category words unless kept. -/
def parts3 (name : String) : List String :=
  (parts2 name).filter (fun p => !(DROP_CATEGORIES.contains p) || (keepSet name).contains p)

/-- core.py lines 312–319: `hangul_position` (computed from the raw name). -/
def hangulPositionOf (name : String) : String :=
  if scriptSuffixOf name == "-ko" then
    if pyIn "CHOSEONG" name then "Cho"
    else if pyIn "JUNGSEONG" name then "Jung"
    else if pyIn "JONGSEONG" name then "Jong"
    else ""
  else ""

/-- core.py line 321: removal of the Hangul position words. -/
def parts4 (name : String) : List String :=
  if scriptSuffixOf name == "-ko" then
    (parts3 name).filter (fun p =>
      !((["CHOSEONG", "JUNGSEONG", "JONGSEONG"] : List String).contains p))
  else parts3 name

/-- core.py lines 324–332: `case_indicators_to_remove` (set `discard`
modelled by filtering). -/
def caseIndicatorsToRemove (name : String) : List String :=
  let r := CASE_INDICATORS
  let r := if isSmallVariant name || isSmallCapital name || isSmallScriptVariant name then
    r.filter (fun w => w != "SMALL") else r
  let r := if isSmallCapital name then r.filter (fun w => w != "CAPITAL") else r
  let r := if scriptSuffixOf name == "-hira" || scriptSuffixOf name == "-kata" then
    r.filter (fun w => w != "SMALL") else r
  r

/-- core.py line 333: removal of the case indicator words. -/
def parts5 (name : String) : List String :=
  (parts4 name).filter (fun p => !(caseIndicatorsToRemove name).contains p)

/-- core.py lines 338–343: `connecting_words_tentative`. -/
def connectingTentative (is_symbol_for has_syllable : Bool) : List String :=
  let s : List String := ["WITH", "OF"]
  let s := if !is_symbol_for then "FOR" :: s else s
  let s := if !has_syllable then "TO" :: "THE" :: s else s
  s

/-- core.py lines 344–350: remove the connecting words only when at least
one content word remains. -/
def connectingFilter (is_symbol_for has_syllable : Bool) (parts : List String) : List String :=
  let tentative := connectingTentative is_symbol_for has_syllable
  let content := parts.filter (fun p => !tentative.contains p)
  if content.length > 0 then content else parts

/-- `parts` after the connecting-word filter. -/
def parts6 (name : String) : List String :=
  connectingFilter (isSymbolFor name) (hasSyllable name) (parts5 name)

/-- core.py line 380: `descriptors`. -/
def runicDescriptors : List String := ["DOTTED", "LONG", "BRANCH", "SHORT", "GOLDEN"]

/-- core.py lines 354–388: the Runic hyphen split and transcription-variant
pruning. -/
def runicTransform (parts : List String) : List String :=
  let expanded := (parts.map (fun p =>
    if p.data.contains '-' then (splitHyphenAux p.data []).map String.mk else [p])).flatten
  if expanded.length ≥ 2 then
    let multi := expanded.filter (fun p => p.length > 1)
    let single := expanded.filter (fun p => p.length == 1)
    let nonDescriptorMulti := multi.filter (fun p => !(runicDescriptors.contains p))
    if nonDescriptorMulti.length > 0 && single.length > 0 then multi else expanded
  else expanded

/-- `parts` after the Runic transform (applied only for `-run`). -/
def parts7 (name : String) : List String :=
  if scriptSuffixOf name == "-run" then runicTransform (parts6 name) else parts6 name

/-- core.py lines 393–396: `is_combining` (raw-name substring test, no
script detected). -/
def isCombiningFlag (name : String) : Bool :=
  pyIn "COMBINING" name && scriptSuffixOf name == ""

/-- core.py line 398: removal of the `COMBINING` token. -/
def parts8 (name : String) : List String :=
  if isCombiningFlag name then (parts7 name).filter (fun p => p != "COMBINING")
  else parts7 name

/-- core.py lines 403–410: `hebrew_suffix`. -/
def hebrewSuffixOf (name : String) : String :=
  if scriptSuffixOf name == "-heb" then
    if (parts8 name).contains "ACCENT" then "Accent"
    else if (parts8 name).contains "PUNCTUATION" then "Punctuation"
    else ""
  else ""

/-- core.py lines 404–410: removal of the Hebrew `ACCENT`/`PUNCTUATION`
token; this is the final value of the Python local `parts`. -/
def finalParts (name : String) : List String :=
  if scriptSuffixOf name == "-heb" && (parts8 name).contains "ACCENT" then
    (parts8 name).filter (fun p => p != "ACCENT")
  else if scriptSuffixOf name == "-heb" && (parts8 name).contains "PUNCTUATION" then
    (parts8 name).filter (fun p => p != "PUNCTUATION")
  else parts8 name

/-- core.py lines 428–434: `is_multi_letter_ligature`. -/
def isMultiLetterLigature (first : String) (is_capital : Bool) (script_suffix : String) : Bool :=
  (first.length == 2 || first.length == 3) && pyIsUpper first && is_capital &&
    first.data.all pyIsAlphaChar && script_suffix == "-lat"

/-- core.py lines 436–449: the casing engine, producing the camelCase body
from the final token list. -/
def assembleCamel (ligature is_capital : Bool) (first : String) (rest : List String) : String :=
  let g := if ligature then first
    else if is_capital then pyCapitalize first
    else pyLower first
  rest.foldl (fun acc p => acc ++ pyCapitalize p) g

/-- The camelCase body of the glyph name (empty for an empty token list,
which the caller guards against). -/
def bodyCore (name : String) : String :=
  match finalParts name with
  | [] => ""
  | first :: rest =>
    assembleCamel (isMultiLetterLigature first (isCapitalFlag name) (scriptSuffixOf name))
      (isCapitalFlag name) first rest

/-- core.py lines 451–473: the body with the trailing suffix words appended
in the fixed source order (Combining, Hebrew, syllable, letter, Hangul). -/
def bodyWithWords (name : String) : String :=
  let g := bodyCore name
  let g := if isCombiningFlag name then g ++ "Combining" else g
  let g := if hebrewSuffixOf name != "" then g ++ hebrewSuffixOf name else g
  let g := if syllableSuffixOf name != "" then g ++ syllableSuffixOf name else g
  let g := if letterSuffixOf name != "" then g ++ letterSuffixOf name else g
  let g := if hangulPositionOf name != "" then g ++ hangulPositionOf name else g
  g

/-- core.py lines 476–478: the Arabic tanween micro-rewrite. -/
def tanweenRewrite (script_suffix g : String) : String :=
  if script_suffix == "-ar" && pyEndsWith g "tan" then
    String.mk (g.data.take (g.data.length - 3)) ++ "Tanween"
  else g

/-- The glyph name produced for a resolvable, non-collapsing name
(core.py lines 416–483). -/
def glyphNameOf (name : String) : String :=
  tanweenRewrite (scriptSuffixOf name) (bodyWithWords name) ++ scriptSuffixOf name

/-- core.py lines 150–152 and 412–414: the fallback string. -/
def fallbackName (decimal_unicode : Nat) : String := "uni" ++ pyHexUpper4 decimal_unicode

/-- core.py lines 133–483: `glyph_data_for_unicode`.  The provider record is
an explicit argument (`none` models a falsy/absent `youseedee.ucd_data`
result; the list models the returned dict). -/
def glyph_data_for_unicode (decimal_unicode : Nat)
    (ucd : Option (List (String × String))) : String :=
  match ucd with
  | none => fallbackName decimal_unicode
  | some r =>
    match r.lookup "Name" with
    | none => fallbackName decimal_unicode
    | some name =>
      if (finalParts name).isEmpty then fallbackName decimal_unicode
      else glyphNameOf name

/-! ### Specification-side predicates used to state the claims -/

/-- ASCII alphanumeric test. -/
def alnumB (c : Char) : Bool := pyIsAlphaChar c || digit09 c

/-- A well-formed name token: upper-case ASCII letters and digits only,
starting with a letter (the shape of the words of hyphen-free Unicode
character names). -/
def goodTok (t : String) : Bool :=
  match t.data with
  | [] => false
  | c :: cs => upperAZ c && cs.all (fun ch => upperAZ ch || digit09 ch)

/-- A well-formed glyph-name body: non-empty, ASCII letter first,
alphanumeric throughout. -/
def bodyOk (s : String) : Bool :=
  match s.data with
  | [] => false
  | c :: cs => pyIsAlphaChar c && cs.all alnumB

/-- All characters alphanumeric. -/
def alnumStr (s : String) : Bool := s.data.all alnumB

/-- Shape of a script suffix: a hyphen followed by one or more lower-case
letters. -/
def scriptSufOk (s : String) : Bool :=
  match s.data with
  | '-' :: rest => !rest.isEmpty && rest.all lowerAZ
  | _ => false

/-- Decision procedure for the specification's regular expression
`[A-Za-z][A-Za-z0-9]*(-[a-z]+)?`, anchored at both ends. -/
def glyphReMatch (s : String) : Bool :=
  match s.data with
  | [] => false
  | c :: rest =>
    pyIsAlphaChar c &&
      (match rest.dropWhile alnumB with
       | [] => true
       | '-' :: suf => !suf.isEmpty && suf.all lowerAZ
       | _ => false)

/-- Upper-case hexadecimal digit test. -/
def hexDigitB (c : Char) : Bool := digit09 c || (65 ≤ c.toNat && c.toNat ≤ 70)

/-- Numeric value of one upper-case hexadecimal digit character. -/
def hexCharVal (c : Char) : Nat :=
  if digit09 c then c.toNat - 48 else c.toNat - 55

/-- Numeric value of a list of hexadecimal digit characters (most
significant first). -/
def hexVal (l : List Char) : Nat := l.foldl (fun a c => 16 * a + hexCharVal c) 0

/-- Concatenation of a list of strings with no separator. -/
def strConcat (l : List String) : String := l.foldr (fun a b => a ++ b) ""

/-! ### Generic helper lemmas -/

theorem removeWords_eq_filter (ws : List String) :
    ∀ ps : List String, removeWords ws ps = ps.filter (fun p => !(ws.contains p)) := by
  induction ws with
  | nil =>
    intro ps
    simp only [removeWords, List.foldl_nil]
    exact (List.filter_eq_self.mpr (fun a _ => by simp)).symm
  | cons w ws ih =>
    intro ps
    have step : removeWords (w :: ws) ps = removeWords ws (ps.filter (fun p => p != w)) := rfl
    rw [step, ih, List.filter_filter]
    apply List.filter_congr
    intro x _
    simp only [List.contains_cons, Bool.not_or, bne]
    exact Bool.and_comm _ _

theorem mem_of_mem_removeWords {ws ps : List String} {x : String}
    (h : x ∈ removeWords ws ps) : x ∈ ps := by
  rw [removeWords_eq_filter] at h
  exact (List.mem_filter.mp h).1

theorem not_mem_removeWords_self {ws ps : List String} {x : String}
    (hx : ws.contains x = true) : x ∉ removeWords ws ps := by
  rw [removeWords_eq_filter]
  intro hmem
  have h2 := (List.mem_filter.mp hmem).2
  rw [hx] at h2
  simp at h2

theorem mem_insertDesc {α : Type} (key : α → Nat) (a x : α) :
    ∀ l : List α, x ∈ insertDesc key a l ↔ x = a ∨ x ∈ l := by
  intro l
  induction l with
  | nil => simp [insertDesc]
  | cons b bs ih =>
    by_cases h : key b < key a
    · simp [insertDesc, h]
    · simp only [insertDesc, if_neg h, List.mem_cons, ih]
      tauto

theorem sorted_insertDesc {α : Type} (key : α → Nat) (a : α) :
    ∀ l : List α, l.Pairwise (fun x y => key y ≤ key x) →
      (insertDesc key a l).Pairwise (fun x y => key y ≤ key x) := by
  intro l
  induction l with
  | nil => intro _; simp [insertDesc]
  | cons b bs ih =>
    intro hp
    rcases List.pairwise_cons.mp hp with ⟨hb, hbs⟩
    by_cases h : key b < key a
    · rw [insertDesc, if_pos h]
      refine List.pairwise_cons.mpr ⟨?_, hp⟩
      intro y hy
      rcases List.mem_cons.mp hy with rfl | hy2
      · omega
      · have := hb y hy2
        omega
    · rw [insertDesc, if_neg h]
      refine List.pairwise_cons.mpr ⟨?_, ih hbs⟩
      intro y hy
      rcases (mem_insertDesc key a y bs).mp hy with rfl | hy2
      · omega
      · exact hb y hy2

theorem mem_sortDescBy {α : Type} (key : α → Nat) (l : List α) (x : α) :
    x ∈ sortDescBy key l ↔ x ∈ l := by
  have gen : ∀ (m : List α) (acc : List α),
      x ∈ m.foldl (fun acc a => insertDesc key a acc) acc ↔ x ∈ acc ∨ x ∈ m := by
    intro m
    induction m with
    | nil => intro acc; simp
    | cons a as ih =>
      intro acc
      rw [List.foldl_cons, ih, mem_insertDesc]
      simp only [List.mem_cons]
      tauto
  have := gen l []
  simpa [sortDescBy] using this

theorem sorted_sortDescBy {α : Type} (key : α → Nat) (l : List α) :
    (sortDescBy key l).Pairwise (fun x y => key y ≤ key x) := by
  have gen : ∀ (m : List α) (acc : List α),
      acc.Pairwise (fun x y => key y ≤ key x) →
      (m.foldl (fun acc a => insertDesc key a acc) acc).Pairwise
        (fun x y => key y ≤ key x) := by
    intro m
    induction m with
    | nil => intro acc h; simpa using h
    | cons a as ih =>
      intro acc h
      exact ih _ (sorted_insertDesc key a acc h)
  exact gen l [] (by simp)

theorem find?_key_max {α : Type} {key : α → Nat} {p : α → Bool} {a : α} :
    ∀ {l : List α}, l.Pairwise (fun x y => key y ≤ key x) → l.find? p = some a →
      ∀ b ∈ l, p b = true → key b ≤ key a := by
  intro l
  induction l with
  | nil => intro _ hfind; simp at hfind
  | cons x xs ih =>
    intro hp hfind b hb hpb
    rcases List.pairwise_cons.mp hp with ⟨hx, hxs⟩
    by_cases hpx : p x = true
    · rw [List.find?_cons_of_pos _ hpx] at hfind
      injection hfind with hfind
      subst hfind
      rcases List.mem_cons.mp hb with rfl | hb2
      · omega
      · exact hx b hb2
    · rw [List.find?_cons_of_neg _ (by simp [hpx])] at hfind
      rcases List.mem_cons.mp hb with rfl | hb2
      · exact absurd hpb hpx
      · exact ih hxs hfind b hb2 hpb

/-! ### Character-class lemmas -/

theorem char_toNat_ofNat_small (n : Nat) (h : n < 55296) : (Char.ofNat n).toNat = n := by
  have hv : n.isValidChar := Or.inl h
  rw [Char.ofNat, dif_pos hv]
  simp [Char.ofNatAux, Char.toNat, UInt32.toNat, BitVec.toNat_ofNatLt]

theorem upperAZ_iff {c : Char} : upperAZ c = true ↔ 65 ≤ c.toNat ∧ c.toNat ≤ 90 := by
  simp [upperAZ]

theorem lowerAZ_iff {c : Char} : lowerAZ c = true ↔ 97 ≤ c.toNat ∧ c.toNat ≤ 122 := by
  simp [lowerAZ]

theorem digit09_iff {c : Char} : digit09 c = true ↔ 48 ≤ c.toNat ∧ c.toNat ≤ 57 := by
  simp [digit09]

theorem pyLowerChar_of_upper {c : Char} (h : upperAZ c = true) :
    lowerAZ (pyLowerChar c) = true := by
  rcases upperAZ_iff.mp h with ⟨h1, h2⟩
  rw [pyLowerChar, if_pos h]
  rw [lowerAZ_iff, char_toNat_ofNat_small _ (by omega)]
  omega

theorem pyLowerChar_of_not_upper {c : Char} (h : upperAZ c = false) :
    pyLowerChar c = c := by
  rw [pyLowerChar, if_neg (by simp [h])]

theorem pyUpperChar_of_lower {c : Char} (h : lowerAZ c = true) :
    upperAZ (pyUpperChar c) = true := by
  rcases lowerAZ_iff.mp h with ⟨h1, h2⟩
  rw [pyUpperChar, if_pos h]
  rw [upperAZ_iff, char_toNat_ofNat_small _ (by omega)]
  omega

theorem pyUpperChar_of_not_lower {c : Char} (h : lowerAZ c = false) :
    pyUpperChar c = c := by
  rw [pyUpperChar, if_neg (by simp [h])]

theorem upper_not_lower {c : Char} (h : upperAZ c = true) : lowerAZ c = false := by
  rcases upperAZ_iff.mp h with ⟨h1, h2⟩
  rw [Bool.eq_false_iff]
  intro hc
  rcases lowerAZ_iff.mp hc with ⟨h3, _⟩
  omega

theorem lower_not_upper {c : Char} (h : lowerAZ c = true) : upperAZ c = false := by
  rcases lowerAZ_iff.mp h with ⟨h1, h2⟩
  rw [Bool.eq_false_iff]
  intro hc
  rcases upperAZ_iff.mp hc with ⟨h3, h4⟩
  omega

theorem digit_not_upper {c : Char} (h : digit09 c = true) : upperAZ c = false := by
  rcases digit09_iff.mp h with ⟨h1, h2⟩
  rw [Bool.eq_false_iff]
  intro hc
  rcases upperAZ_iff.mp hc with ⟨h3, _⟩
  omega

theorem digit_not_lower {c : Char} (h : digit09 c = true) : lowerAZ c = false := by
  rcases digit09_iff.mp h with ⟨h1, h2⟩
  rw [Bool.eq_false_iff]
  intro hc
  rcases lowerAZ_iff.mp hc with ⟨h3, _⟩
  omega

theorem alnumB_pyLowerChar {c : Char} (h : alnumB c = true) :
    alnumB (pyLowerChar c) = true := by
  rcases Bool.or_eq_true_iff.mp h with h1 | h1
  · rcases Bool.or_eq_true_iff.mp h1 with h2 | h2
    · have := pyLowerChar_of_upper h2
      simp [alnumB, pyIsAlphaChar, this]
    · rw [pyLowerChar_of_not_upper (lower_not_upper h2)]
      exact h
  · rw [pyLowerChar_of_not_upper (digit_not_upper h1)]
    exact h

theorem alnumB_pyUpperChar {c : Char} (h : alnumB c = true) :
    alnumB (pyUpperChar c) = true := by
  rcases Bool.or_eq_true_iff.mp h with h1 | h1
  · rcases Bool.or_eq_true_iff.mp h1 with h2 | h2
    · rw [pyUpperChar_of_not_lower (upper_not_lower h2)]
      exact h
    · have := pyUpperChar_of_lower h2
      simp [alnumB, pyIsAlphaChar, this]
  · rw [pyUpperChar_of_not_lower (digit_not_lower h1)]
    exact h

theorem alnumB_of_goodChar {c : Char} (h : (upperAZ c || digit09 c) = true) :
    alnumB c = true := by
  rcases Bool.or_eq_true_iff.mp h with h1 | h1 <;>
    simp [alnumB, pyIsAlphaChar, h1]

theorem goodChar_ne_hyphen {c : Char} (h : (upperAZ c || digit09 c) = true) :
    (c == '-') = false := by
  rw [Bool.eq_false_iff]
  intro hc
  have hceq : c = '-' := by simpa using hc
  subst hceq
  revert h
  decide

theorem alnum_not_hyphen {c : Char} (h : alnumB c = true) : (c = '-') → False := by
  intro hc
  subst hc
  revert h
  decide

/-! ### Token well-formedness through the pipeline stages -/

theorem all_of_subset {α : Type} {p : α → Bool} {ps qs : List α}
    (hsub : ∀ x ∈ qs, x ∈ ps) (h : ps.all p = true) : qs.all p = true := by
  rw [List.all_eq_true] at h ⊢
  exact fun x hx => h x (hsub x hx)

theorem all_filter {α : Type} {p : α → Bool} (q : α → Bool) {ps : List α}
    (h : ps.all p = true) : (ps.filter q).all p = true :=
  all_of_subset (fun _ hx => (List.mem_filter.mp hx).1) h

theorem goodTok_data {p : String} (h : goodTok p = true) :
    ∃ c cs, p.data = c :: cs ∧ upperAZ c = true ∧
      cs.all (fun ch => upperAZ ch || digit09 ch) = true := by
  unfold goodTok at h
  cases hd : p.data with
  | nil => rw [hd] at h; cases h
  | cons c cs =>
    rw [hd] at h
    rcases Bool.and_eq_true_iff.mp h with ⟨h1, h2⟩
    exact ⟨c, cs, rfl, h1, h2⟩

theorem goodTok_all_chars {p : String} (h : goodTok p = true) :
    ∀ c ∈ p.data, (upperAZ c || digit09 c) = true := by
  rcases goodTok_data h with ⟨c, cs, hd, h1, h2⟩
  intro x hx
  rw [hd] at hx
  rcases List.mem_cons.mp hx with rfl | hx2
  · simp [h1]
  · exact (List.all_eq_true.mp h2) x hx2

theorem goodTok_no_hyphen {p : String} (h : goodTok p = true) :
    p.data.contains '-' = false := by
  rw [Bool.eq_false_iff]
  intro hcon
  rw [List.contains_eq_any_beq, List.any_eq_true] at hcon
  obtain ⟨x, hx, hbeq⟩ := hcon
  have hxe : '-' = x := by simpa using hbeq
  subst hxe
  have := goodTok_all_chars h _ hx
  revert this
  decide

theorem runicExpand_eq_self {ps : List String} (h : ps.all goodTok = true) :
    (ps.map (fun p =>
      if p.data.contains '-' then (splitHyphenAux p.data []).map String.mk
      else [p])).flatten = ps := by
  induction ps with
  | nil => rfl
  | cons p ps ih =>
    rw [List.all_cons] at h
    rcases Bool.and_eq_true_iff.mp h with ⟨h1, h2⟩
    simp only [List.map_cons, List.flatten_cons, goodTok_no_hyphen h1,
      Bool.false_eq_true, if_false, List.singleton_append, ih h2]

theorem runicTransform_good {ps : List String} (h : ps.all goodTok = true) :
    (runicTransform ps).all goodTok = true := by
  unfold runicTransform
  rw [runicExpand_eq_self h]
  dsimp only
  split
  · split
    · exact all_filter _ h
    · exact h
  · exact h

theorem connectingFilter_good {p : String → Bool} {isf hsy : Bool} {ps : List String}
    (h : ps.all p = true) : (connectingFilter isf hsy ps).all p = true := by
  unfold connectingFilter
  dsimp only
  split
  · exact all_filter _ h
  · exact h

theorem finalParts_good {name : String} (h : (parts0 name).all goodTok = true) :
    (finalParts name).all goodTok = true := by
  have h1 : (parts1 name).all goodTok = true :=
    all_of_subset (fun x hx => mem_of_mem_removeWords hx) h
  have h2 : (parts2 name).all goodTok = true := by
    unfold parts2
    split
    · exact all_filter _ h1
    · exact h1
  have h3 : (parts3 name).all goodTok = true := all_filter _ h2
  have h4 : (parts4 name).all goodTok = true := by
    unfold parts4
    split
    · exact all_filter _ h3
    · exact h3
  have h5 : (parts5 name).all goodTok = true := all_filter _ h4
  have h6 : (parts6 name).all goodTok = true := connectingFilter_good h5
  have h7 : (parts7 name).all goodTok = true := by
    unfold parts7
    split
    · exact runicTransform_good h6
    · exact h6
  have h8 : (parts8 name).all goodTok = true := by
    unfold parts8
    split
    · exact all_filter _ h7
    · exact h7
  unfold finalParts
  split
  · exact all_filter _ h8
  · split
    · exact all_filter _ h8
    · exact h8

/-! ### Body assembly produces well-formed glyph-name bodies -/

theorem string_mk_data (l : List Char) : (String.mk l).data = l := rfl

theorem str_append_empty (s : String) : s ++ "" = s :=
  String.ext (by simp)

theorem bodyOk_data {s : String} (h : bodyOk s = true) :
    ∃ c cs, s.data = c :: cs ∧ pyIsAlphaChar c = true ∧ cs.all alnumB = true := by
  unfold bodyOk at h
  cases hd : s.data with
  | nil => rw [hd] at h; cases h
  | cons c cs =>
    rw [hd] at h
    rcases Bool.and_eq_true_iff.mp h with ⟨h1, h2⟩
    exact ⟨c, cs, rfl, h1, h2⟩

theorem alnumStr_of_bodyOk {s : String} (h : bodyOk s = true) : alnumStr s = true := by
  rcases bodyOk_data h with ⟨c, cs, hd, h1, h2⟩
  unfold alnumStr
  rw [hd, List.all_cons, h2]
  simp [alnumB, h1]

theorem bodyOk_append {a b : String} (ha : bodyOk a = true) (hb : alnumStr b = true) :
    bodyOk (a ++ b) = true := by
  rcases bodyOk_data ha with ⟨c, cs, hd, h1, h2⟩
  unfold bodyOk
  rw [String.data_append, hd, List.cons_append]
  show (pyIsAlphaChar c && (cs ++ b.data).all alnumB) = true
  unfold alnumStr at hb
  rw [List.all_append, h1, h2, hb]
  rfl

theorem bodyOk_of_goodTok {t : String} (h : goodTok t = true) : bodyOk t = true := by
  rcases goodTok_data h with ⟨c, cs, hd, h1, h2⟩
  unfold bodyOk
  rw [hd]
  show (pyIsAlphaChar c && cs.all alnumB) = true
  have hca : pyIsAlphaChar c = true := by simp [pyIsAlphaChar, h1]
  have hcs : cs.all alnumB = true := by
    rw [List.all_eq_true] at h2 ⊢
    exact fun x hx => alnumB_of_goodChar (h2 x hx)
  rw [hca, hcs]
  rfl

theorem bodyOk_pyLower {t : String} (h : goodTok t = true) : bodyOk (pyLower t) = true := by
  rcases goodTok_data h with ⟨c, cs, hd, h1, h2⟩
  unfold bodyOk pyLower
  rw [hd, List.map_cons, string_mk_data]
  show (pyIsAlphaChar (pyLowerChar c) && (cs.map pyLowerChar).all alnumB) = true
  have hc : pyIsAlphaChar (pyLowerChar c) = true := by
    have := pyLowerChar_of_upper h1
    simp [pyIsAlphaChar, this]
  have hcs : (cs.map pyLowerChar).all alnumB = true := by
    rw [List.all_eq_true]
    intro x hx
    rcases List.mem_map.mp hx with ⟨y, hy, rfl⟩
    exact alnumB_pyLowerChar (alnumB_of_goodChar ((List.all_eq_true.mp h2) y hy))
  rw [hc, hcs]
  rfl

theorem bodyOk_pyCapitalize {t : String} (h : goodTok t = true) :
    bodyOk (pyCapitalize t) = true := by
  rcases goodTok_data h with ⟨c, cs, hd, h1, h2⟩
  unfold bodyOk pyCapitalize
  rw [hd, string_mk_data]
  show (pyIsAlphaChar (pyUpperChar c) && (cs.map pyLowerChar).all alnumB) = true
  have hc : pyIsAlphaChar (pyUpperChar c) = true := by
    rw [pyUpperChar_of_not_lower (upper_not_lower h1)]
    simp [pyIsAlphaChar, h1]
  have hcs : (cs.map pyLowerChar).all alnumB = true := by
    rw [List.all_eq_true]
    intro x hx
    rcases List.mem_map.mp hx with ⟨y, hy, rfl⟩
    exact alnumB_pyLowerChar (alnumB_of_goodChar ((List.all_eq_true.mp h2) y hy))
  rw [hc, hcs]
  rfl

theorem bodyOk_foldl {rest : List String} (h2 : rest.all goodTok = true) :
    ∀ {g : String}, bodyOk g = true →
      bodyOk (rest.foldl (fun acc p => acc ++ pyCapitalize p) g) = true := by
  induction rest with
  | nil => intro g hg; simpa using hg
  | cons p ps ih =>
    intro g hg
    rw [List.all_cons] at h2
    rcases Bool.and_eq_true_iff.mp h2 with ⟨hp, hps⟩
    rw [List.foldl_cons]
    exact ih hps (bodyOk_append hg (alnumStr_of_bodyOk (bodyOk_pyCapitalize hp)))

theorem bodyOk_assembleCamel {first : String} {rest : List String}
    (h1 : goodTok first = true) (h2 : rest.all goodTok = true) (lig isCap : Bool) :
    bodyOk (assembleCamel lig isCap first rest) = true := by
  unfold assembleCamel
  dsimp only
  apply bodyOk_foldl h2
  split
  · exact bodyOk_of_goodTok h1
  · split
    · exact bodyOk_pyCapitalize h1
    · exact bodyOk_pyLower h1

theorem bodyOk_bodyCore {name : String} (h : (parts0 name).all goodTok = true)
    (hne : ¬((finalParts name).isEmpty = true)) : bodyOk (bodyCore name) = true := by
  have hfp := finalParts_good h
  unfold bodyCore
  cases hf : finalParts name with
  | nil => rw [hf] at hne; simp at hne
  | cons first rest =>
    rw [hf] at hfp
    rw [List.all_cons] at hfp
    rcases Bool.and_eq_true_iff.mp hfp with ⟨ha, hb⟩
    exact bodyOk_assembleCamel ha hb _ _

theorem bodyOk_appendIf (c : Bool) (g x : String) (hg : bodyOk g = true)
    (hx : alnumStr x = true) : bodyOk (if c then g ++ x else g) = true := by
  cases c
  · simpa using hg
  · simpa using bodyOk_append hg hx

theorem alnumStr_hebrewSuffix (name : String) : alnumStr (hebrewSuffixOf name) = true := by
  unfold hebrewSuffixOf
  split
  · split
    · decide
    · split
      · decide
      · decide
  · decide

theorem alnumStr_syllableSuffix (name : String) : alnumStr (syllableSuffixOf name) = true := by
  unfold syllableSuffixOf
  split
  · decide
  · split
    · decide
    · decide

theorem alnumStr_letterSuffix (name : String) : alnumStr (letterSuffixOf name) = true := by
  unfold letterSuffixOf
  dsimp only
  split
  · decide
  · split
    · decide
    · decide

theorem alnumStr_hangulPosition (name : String) : alnumStr (hangulPositionOf name) = true := by
  unfold hangulPositionOf
  split
  · split
    · decide
    · split
      · decide
      · split
        · decide
        · decide
  · decide

theorem bodyOk_bodyWithWords {name : String} (h : (parts0 name).all goodTok = true)
    (hne : ¬((finalParts name).isEmpty = true)) : bodyOk (bodyWithWords name) = true := by
  unfold bodyWithWords
  dsimp only
  apply bodyOk_appendIf
  · apply bodyOk_appendIf
    · apply bodyOk_appendIf
      · apply bodyOk_appendIf
        · apply bodyOk_appendIf
          · exact bodyOk_bodyCore h hne
          · decide
        · exact alnumStr_hebrewSuffix name
      · exact alnumStr_syllableSuffix name
    · exact alnumStr_letterSuffix name
  · exact alnumStr_hangulPosition name

theorem scriptSufOk_data {s : String} (h : scriptSufOk s = true) :
    ∃ suf : List Char, s.data = '-' :: suf ∧ suf.isEmpty = false ∧
      suf.all lowerAZ = true := by
  unfold scriptSufOk at h
  split at h
  · rename_i rest heq
    rcases Bool.and_eq_true_iff.mp h with ⟨h1, h2⟩
    exact ⟨rest, heq, by simpa using h1, h2⟩
  · cases h

theorem bodyOk_tanween {s g : String} (h : bodyOk g = true) :
    bodyOk (tanweenRewrite s g) = true := by
  unfold tanweenRewrite
  split
  · rcases bodyOk_data h with ⟨c, cs, hd, h1, h2⟩
    cases hlen : g.data.length - 3 with
    | zero =>
      have h0 : String.mk (g.data.take 0) ++ "Tanween" = "Tanween" := by
        apply String.ext
        rw [String.data_append, string_mk_data, List.take_zero]
        rfl
      rw [h0]
      decide
    | succ k =>
      unfold bodyOk
      rw [String.data_append, string_mk_data, hd, List.take_succ_cons,
        List.cons_append]
      have htail : (cs.take k ++ "Tanween".data).all alnumB = true := by
        rw [List.all_append]
        have hsub : (cs.take k).all alnumB = true :=
          all_of_subset (fun x hx => (List.take_sublist k cs).mem hx) h2
        rw [hsub]
        decide
      show (pyIsAlphaChar c && (cs.take k ++ "Tanween".data).all alnumB) = true
      rw [h1, htail]
      rfl
  · exact h

/-! ### The regular-expression matcher accepts well-formed outputs -/

theorem glyphReMatch_of_shape {c : Char} {cs : List Char} {s : String}
    (hd : s.data = c :: cs) (h1 : pyIsAlphaChar c = true)
    (h2 : cs.all alnumB = true) : glyphReMatch s = true := by
  unfold glyphReMatch
  rw [hd]
  show (pyIsAlphaChar c &&
    (match cs.dropWhile alnumB with
     | [] => true
     | '-' :: suf => !suf.isEmpty && suf.all lowerAZ
     | _ => false)) = true
  have hdrop : cs.dropWhile alnumB = [] :=
    List.dropWhile_eq_nil_iff.mpr (fun x hx => (List.all_eq_true.mp h2) x hx)
  rw [h1, hdrop]
  rfl

theorem glyphReMatch_of_bodyOk {b : String} (h : bodyOk b = true) :
    glyphReMatch b = true := by
  rcases bodyOk_data h with ⟨c, cs, hd, h1, h2⟩
  exact glyphReMatch_of_shape hd h1 h2

theorem dropWhile_all_append {l1 l2 : List Char} {x : Char} (h : l1.all alnumB = true)
    (hx : alnumB x = false) : (l1 ++ x :: l2).dropWhile alnumB = x :: l2 := by
  induction l1 with
  | nil => simp [List.dropWhile_cons, hx]
  | cons a as ih =>
    rw [List.all_cons] at h
    rcases Bool.and_eq_true_iff.mp h with ⟨ha, has⟩
    rw [List.cons_append, List.dropWhile_cons, ha]
    simpa using ih has

theorem glyphReMatch_append_suffix {b s : String} (hb : bodyOk b = true)
    (hs : scriptSufOk s = true) : glyphReMatch (b ++ s) = true := by
  rcases bodyOk_data hb with ⟨c, cs, hd, h1, h2⟩
  rcases scriptSufOk_data hs with ⟨suf, hsd, hne, hlow⟩
  unfold glyphReMatch
  rw [String.data_append, hd, hsd, List.cons_append]
  show (pyIsAlphaChar c &&
    (match (cs ++ '-' :: suf).dropWhile alnumB with
     | [] => true
     | '-' :: suf => !suf.isEmpty && suf.all lowerAZ
     | _ => false)) = true
  rw [dropWhile_all_append h2 (by decide), h1]
  show (true && (!suf.isEmpty && suf.all lowerAZ)) = true
  rw [hne, hlow]
  rfl

theorem scriptSuffixP_cases (parts : List String) :
    scriptSuffixP parts = "" ∨ scriptSufOk (scriptSuffixP parts) = true := by
  unfold scriptSuffixP
  cases hfind : detectScript parts with
  | none => exact Or.inl rfl
  | some e =>
    right
    have hmem : e ∈ sortedScripts := List.mem_of_find?_eq_some hfind
    have hmem2 : e ∈ SCRIPT_SUFFIXES :=
      (mem_sortDescBy wordCountKey SCRIPT_SUFFIXES e).mp hmem
    have hall : SCRIPT_SUFFIXES.all (fun e => scriptSufOk e.2) = true := by decide
    exact (List.all_eq_true.mp hall) e hmem2

/-! ### Hexadecimal fallback lemmas -/

theorem hexDigitB_hexDigitChar {n : Nat} (h : n < 16) :
    hexDigitB (hexDigitChar n) = true := by
  have hall : ∀ m, m < 16 → hexDigitB (hexDigitChar m) = true := by decide
  exact hall n h

theorem hexCharVal_hexDigitChar {n : Nat} (h : n < 16) :
    hexCharVal (hexDigitChar n) = n := by
  have hall : ∀ m, m < 16 → hexCharVal (hexDigitChar m) = m := by decide
  exact hall n h

theorem alnumB_of_hexDigitB {c : Char} (h : hexDigitB c = true) : alnumB c = true := by
  rcases Bool.or_eq_true_iff.mp h with h1 | h1
  · simp [alnumB, h1]
  · rcases Bool.and_eq_true_iff.mp h1 with ⟨ha, hb⟩
    have h65 : 65 ≤ c.toNat := by simpa using ha
    have h70 : c.toNat ≤ 70 := by simpa using hb
    have hu : upperAZ c = true := upperAZ_iff.mpr ⟨h65, by omega⟩
    simp [alnumB, pyIsAlphaChar, hu]

theorem hexDigitsAux_all (fuel : Nat) :
    ∀ n, (hexDigitsAux fuel n).all hexDigitB = true := by
  induction fuel with
  | zero => intro n; rfl
  | succ fuel ih =>
    intro n
    unfold hexDigitsAux
    split
    · rename_i h16
      simp [hexDigitB_hexDigitChar h16]
    · rw [List.all_append, ih (n / 16)]
      simp [hexDigitB_hexDigitChar (Nat.mod_lt n (by decide))]

theorem hexDigits_all (n : Nat) : (hexDigits n).all hexDigitB = true :=
  hexDigitsAux_all (n + 1) n

theorem pyHexUpper4_all (n : Nat) : (pyHexUpper4 n).data.all hexDigitB = true := by
  unfold pyHexUpper4
  rw [string_mk_data, List.all_append]
  have hrep : (List.replicate (4 - (hexDigits n).length) '0').all hexDigitB = true := by
    rw [List.all_eq_true]
    intro x hx
    have hx0 := List.eq_of_mem_replicate hx
    subst hx0
    decide
  rw [hrep, hexDigits_all]
  rfl

theorem pyHexUpper4_length (n : Nat) : 4 ≤ (pyHexUpper4 n).length := by
  have hl : (pyHexUpper4 n).length = (pyHexUpper4 n).data.length := rfl
  rw [hl]
  unfold pyHexUpper4
  rw [string_mk_data, List.length_append, List.length_replicate]
  omega

theorem hexVal_cons_zero (l : List Char) : hexVal ('0' :: l) = hexVal l := by
  show List.foldl (fun a c => 16 * a + hexCharVal c) (16 * 0 + hexCharVal '0') l =
    List.foldl (fun a c => 16 * a + hexCharVal c) 0 l
  have h0 : 16 * 0 + hexCharVal '0' = 0 := by decide
  rw [h0]

theorem hexVal_replicate_zero (k : Nat) (l : List Char) :
    hexVal (List.replicate k '0' ++ l) = hexVal l := by
  induction k with
  | zero => rfl
  | succ k ih =>
    rw [List.replicate_succ, List.cons_append, hexVal_cons_zero]
    exact ih

theorem hexVal_append_one (l : List Char) (c : Char) :
    hexVal (l ++ [c]) = 16 * hexVal l + hexCharVal c := by
  unfold hexVal
  rw [List.foldl_append]
  rfl

theorem hexVal_hexDigitsAux : ∀ fuel n, n < fuel → hexVal (hexDigitsAux fuel n) = n := by
  intro fuel
  induction fuel with
  | zero => intro n h; omega
  | succ fuel ih =>
    intro n h
    unfold hexDigitsAux
    by_cases h16 : n < 16
    · rw [if_pos h16]
      unfold hexVal
      rw [List.foldl_cons, List.foldl_nil, hexCharVal_hexDigitChar h16]
      omega
    · rw [if_neg h16, hexVal_append_one, ih (n / 16) (by omega),
        hexCharVal_hexDigitChar (Nat.mod_lt n (by decide))]
      omega

theorem hexVal_pyHexUpper4 (n : Nat) : hexVal (pyHexUpper4 n).data = n := by
  unfold pyHexUpper4
  rw [string_mk_data, hexVal_replicate_zero]
  exact hexVal_hexDigitsAux (n + 1) n (by omega)

theorem glyphReMatch_fallback (cp : Nat) : glyphReMatch (fallbackName cp) = true := by
  have hdd : (fallbackName cp).data =
      'u' :: 'n' :: 'i' :: (pyHexUpper4 cp).data := by
    unfold fallbackName
    rw [String.data_append]
    rfl
  apply glyphReMatch_of_shape hdd (by decide)
  rw [List.all_cons, List.all_cons]
  have h2 : (pyHexUpper4 cp).data.all alnumB = true := by
    have h := pyHexUpper4_all cp
    rw [List.all_eq_true] at h ⊢
    exact fun x hx => alnumB_of_hexDigitB (h x hx)
  rw [h2]
  decide

/-! ### Well-formedness of the full output -/

theorem glyphReMatch_glyphNameOf {name : String}
    (h : (parts0 name).all goodTok = true)
    (hne : ¬((finalParts name).isEmpty = true)) :
    glyphReMatch (glyphNameOf name) = true := by
  unfold glyphNameOf
  have hb : bodyOk (bodyWithWords name) = true := bodyOk_bodyWithWords h hne
  have hb2 : bodyOk (tanweenRewrite (scriptSuffixOf name) (bodyWithWords name)) = true :=
    bodyOk_tanween hb
  rcases scriptSuffixP_cases (parts0 name) with hs | hs
  · have hs2 : scriptSuffixOf name = "" := hs
    rw [hs2] at hb2 ⊢
    rw [str_append_empty]
    exact glyphReMatch_of_bodyOk hb2
  · exact glyphReMatch_append_suffix hb2 hs

/-! ### Casing-engine and connecting-word helper lemmas -/

theorem foldl_append_eq_concat (l : List String) :
    ∀ g : String, l.foldl (fun acc p => acc ++ pyCapitalize p) g =
      g ++ strConcat (l.map pyCapitalize) := by
  induction l with
  | nil =>
    intro g
    rw [List.foldl_nil, List.map_nil]
    exact (str_append_empty g).symm
  | cons p ps ih =>
    intro g
    rw [List.foldl_cons, List.map_cons, ih]
    show (g ++ pyCapitalize p) ++ strConcat (ps.map pyCapitalize) =
      g ++ (pyCapitalize p ++ strConcat (ps.map pyCapitalize))
    rw [String.append_assoc]

theorem tentative_not_and (isf hsy : Bool) :
    (connectingTentative isf hsy).contains "AND" = false := by
  cases isf <;> cases hsy <;> decide

theorem tentative_not_or (isf hsy : Bool) :
    (connectingTentative isf hsy).contains "OR" = false := by
  cases isf <;> cases hsy <;> decide

theorem tentative_not_for (hsy : Bool) :
    (connectingTentative true hsy).contains "FOR" = false := by
  cases hsy <;> decide

theorem tentative_sublist (isf hsy : Bool) :
    List.Sublist (connectingTentative isf hsy) ["TO", "THE", "FOR", "WITH", "OF"] := by
  cases isf <;> cases hsy <;> decide

theorem count_filter_of_pred {p : String → Bool} {a : String} {l : List String}
    (h : p a = true) : (l.filter p).count a = l.count a := by
  induction l with
  | nil => rfl
  | cons x xs ih =>
    by_cases hx : p x = true
    · rw [List.filter_cons_of_pos hx]
      rw [List.count_cons, List.count_cons, ih]
    · rw [List.filter_cons_of_neg (by simp [hx])]
      rw [List.count_cons, ih]
      have hxa : (x == a) = false := by
        by_cases hxa2 : x = a
        · subst hxa2; exact absurd h hx
        · simp [hxa2]
      rw [hxa]
      simp

theorem glyph_some_cases (cp : Nat) (r : List (String × String)) :
    glyph_data_for_unicode cp (some r) =
      (match r.lookup "Name" with
       | none => fallbackName cp
       | some name =>
         if (finalParts name).isEmpty then fallbackName cp else glyphNameOf name) := rfl

/-! ### The claims -/

/-- C2 counterexample: the specification says the Cuneiform token sequence
is truncated at the first "TIMES" so that "CUNEIFORM SIGN A TIMES BAD"
yields "a-xsux"; the code performs no truncation and returns
"aTimesBad-xsux", as the repository's own tests expect. -/
theorem c2_counterexample :
    glyph_data_for_unicode 73730 (some [("Name", "CUNEIFORM SIGN A TIMES BAD")]) =
      "aTimesBad-xsux" ∧
    glyph_data_for_unicode 73730 (some [("Name", "CUNEIFORM SIGN A TIMES BAD")]) ≠
      "a-xsux" := by
  constructor
  · decide
  · decide

/-- C2 amended: for Cuneiform names the token sequence is not truncated at
"TIMES"; every token, including "TIMES" and the words after it, is kept, so
"CUNEIFORM SIGN A TIMES BAD" yields "aTimesBad-xsux" (and similarly for the
other compound signs recorded in the repository's tests). -/
theorem c2_no_truncation :
    finalParts "CUNEIFORM SIGN A TIMES BAD" = ["A", "TIMES", "BAD"] ∧
    glyph_data_for_unicode 73730 (some [("Name", "CUNEIFORM SIGN A TIMES BAD")]) =
      "aTimesBad-xsux" ∧
    glyph_data_for_unicode 73729 (some [("Name", "CUNEIFORM SIGN A TIMES A")]) =
      "aTimesA-xsux" ∧
    glyph_data_for_unicode 74072 (some [("Name", "CUNEIFORM SIGN KA TIMES A")]) =
      "kaTimesA-xsux" := by
  refine ⟨by decide, by decide, by decide, by decide⟩

/-- C3 counterexample: the real Unicode name "LEFT-TO-RIGHT MARK"
(U+200E) produces "left-to-rightMark", which does not match
`[A-Za-z][A-Za-z0-9]*(-[a-z]+)?`: the hyphens of the name are copied
into the body. -/
theorem c3_counterexample :
    glyph_data_for_unicode 8206 (some [("Name", "LEFT-TO-RIGHT MARK")]) =
      "left-to-rightMark" ∧
    glyphReMatch "left-to-rightMark" = false := by
  constructor
  · decide
  · decide

/-- C3 amended: for every codepoint and provider record whose name splits
into tokens made only of upper-case ASCII letters and digits, each starting
with a letter (hyphen-free names), the returned string matches
`[A-Za-z][A-Za-z0-9]*(-[a-z]+)?` anchored at both ends; the fallback path
(no record) also always matches. -/
theorem c3_charset :
    (∀ cp : Nat, glyphReMatch (glyph_data_for_unicode cp none) = true) ∧
    (∀ (cp : Nat) (r : List (String × String)) (name : String),
      r.lookup "Name" = some name → (pySplit name).all goodTok = true →
      glyphReMatch (glyph_data_for_unicode cp (some r)) = true) := by
  constructor
  · intro cp
    exact glyphReMatch_fallback cp
  · intro cp r name hlook hgood
    rw [glyph_some_cases, hlook]
    show glyphReMatch
      (if (finalParts name).isEmpty then fallbackName cp else glyphNameOf name) = true
    by_cases hne : (finalParts name).isEmpty = true
    · rw [if_pos hne]
      exact glyphReMatch_fallback cp
    · rw [if_neg hne]
      exact glyphReMatch_glyphNameOf hgood hne

/-- C3 witness: the amended theorem applied to the concrete record of
U+0627 ARABIC LETTER ALEF. -/
theorem c3_witness :
    glyphReMatch (glyph_data_for_unicode 1575 (some [("Name", "ARABIC LETTER ALEF")])) =
      true :=
  c3_charset.2 1575 [("Name", "ARABIC LETTER ALEF")] "ARABIC LETTER ALEF" rfl (by decide)

/-- C4: a script designation matches only as a prefix of the token
sequence; the designation found has the greatest word count among all
designations of the table that prefix the sequence; when none matches, the
script suffix is the empty string and the removal word list is empty; and
word removal removes every occurrence of each designation word. -/
theorem c4_script_detection (parts : List String) :
    (∀ e : String × String, detectScript parts = some e →
       e ∈ SCRIPT_SUFFIXES ∧ (pySplit e.1).isPrefixOf parts = true ∧
       scriptSuffixP parts = e.2 ∧ scriptWordsToRemoveP parts = pySplit e.1 ∧
       (∀ e2 ∈ SCRIPT_SUFFIXES, (pySplit e2.1).isPrefixOf parts = true →
         wordCountKey e2 ≤ wordCountKey e)) ∧
    (detectScript parts = none →
       (∀ e2 ∈ SCRIPT_SUFFIXES, (pySplit e2.1).isPrefixOf parts = false) ∧
       scriptSuffixP parts = "" ∧ scriptWordsToRemoveP parts = []) ∧
    (∀ ws ps : List String, removeWords ws ps = ps.filter (fun p => !(ws.contains p))) := by
  refine ⟨?_, ?_, ?_⟩
  · intro e hfind
    have hfind2 : sortedScripts.find? (fun e => (pySplit e.1).isPrefixOf parts) = some e :=
      hfind
    have hmem : e ∈ sortedScripts := List.mem_of_find?_eq_some hfind2
    have hmem2 : e ∈ SCRIPT_SUFFIXES :=
      (mem_sortDescBy wordCountKey SCRIPT_SUFFIXES e).mp hmem
    have hpred0 := List.find?_some hfind2
    have hpred : (pySplit e.1).isPrefixOf parts = true := hpred0
    refine ⟨hmem2, hpred, ?_, ?_, ?_⟩
    · unfold scriptSuffixP
      rw [hfind]
    · unfold scriptWordsToRemoveP
      rw [hfind]
    · intro e2 he2 hpre
      exact find?_key_max (sorted_sortDescBy wordCountKey SCRIPT_SUFFIXES) hfind2 e2
        ((mem_sortDescBy wordCountKey SCRIPT_SUFFIXES e2).mpr he2) hpre
  · intro hnone
    have hnone2 : sortedScripts.find? (fun e => (pySplit e.1).isPrefixOf parts) = none :=
      hnone
    have hall := List.find?_eq_none.mp hnone2
    refine ⟨?_, ?_, ?_⟩
    · intro e2 he2
      exact Bool.eq_false_iff.mpr
        (hall e2 ((mem_sortDescBy wordCountKey SCRIPT_SUFFIXES e2).mpr he2))
    · unfold scriptSuffixP
      rw [hnone]
    · unfold scriptWordsToRemoveP
      rw [hnone]
  · intro ws ps
    exact removeWords_eq_filter ws ps

/-- C4 witness: the multi-word designation "CAUCASIAN ALBANIAN" is detected
for a token sequence it prefixes, and removal removes all occurrences. -/
theorem c4_witness :
    scriptSuffixP ["CAUCASIAN", "ALBANIAN", "LETTER", "ALT"] = "-aghb" ∧
    removeWords ["A"] ["A", "B", "A"] = ["B"] := by
  constructor
  · exact (((c4_script_detection ["CAUCASIAN", "ALBANIAN", "LETTER", "ALT"]).1
      ("CAUCASIAN ALBANIAN", "-aghb") (by decide)).2.2).1
  · rw [(c4_script_detection []).2.2 ["A"] ["A", "B", "A"]]
    decide

/-- C5: every unresolved-name path returns exactly "uni" followed by the
codepoint in upper-case hexadecimal, zero-padded to at least 4 digits (the
digits really are upper-case hex digits of the codepoint's value, and
codepoint 0 yields "uni0000"); the same string is returned when the
pipeline eliminates every token.  All paths are total by construction. -/
theorem c5_fallback (cp : Nat) :
    glyph_data_for_unicode cp none = "uni" ++ pyHexUpper4 cp ∧
    (∀ r : List (String × String), r.lookup "Name" = none →
      glyph_data_for_unicode cp (some r) = "uni" ++ pyHexUpper4 cp) ∧
    (∀ (r : List (String × String)) (name : String), r.lookup "Name" = some name →
      finalParts name = [] →
      glyph_data_for_unicode cp (some r) = "uni" ++ pyHexUpper4 cp) ∧
    4 ≤ (pyHexUpper4 cp).length ∧
    (pyHexUpper4 cp).data.all hexDigitB = true ∧
    hexVal (pyHexUpper4 cp).data = cp ∧
    glyph_data_for_unicode 0 none = "uni0000" := by
  refine ⟨rfl, ?_, ?_, pyHexUpper4_length cp, pyHexUpper4_all cp,
    hexVal_pyHexUpper4 cp, by decide⟩
  · intro r hlook
    rw [glyph_some_cases, hlook]
    rfl
  · intro r name hlook hempty
    rw [glyph_some_cases, hlook]
    show (if (finalParts name).isEmpty then fallbackName cp else glyphNameOf name) =
      "uni" ++ pyHexUpper4 cp
    rw [hempty]
    rfl

/-- C5 witness: the fallback theorem applied to a record without a "Name"
key and to the name "LETTER", whose tokens are all eliminated. -/
theorem c5_witness :
    glyph_data_for_unicode 0 (some [("Block", "X")]) = "uni" ++ pyHexUpper4 0 ∧
    glyph_data_for_unicode 9 (some [("Name", "LETTER")]) = "uni" ++ pyHexUpper4 9 := by
  constructor
  · exact (c5_fallback 0).2.1 [("Block", "X")] rfl
  · exact (c5_fallback 9).2.2.1 [("Name", "LETTER")] "LETTER" rfl (by decide)

/-- C6: the connecting-word filter removes only words of the tentative set
(always a sub-list of WITH/OF/FOR/THE/TO — so AND and OR are never removed,
and their occurrence counts are preserved); a non-empty sequence stays
non-empty; FOR's count is preserved whenever the symbol-for flag (SYMBOL
and FOR both present) holds; and when anything is removed, at least one
non-connecting content word remains. -/
theorem c6_connecting_words (isf hsy : Bool) (ps : List String) :
    (∀ p ∈ ps, p ∉ connectingFilter isf hsy ps →
      (connectingTentative isf hsy).contains p = true) ∧
    List.Sublist (connectingTentative isf hsy) ["TO", "THE", "FOR", "WITH", "OF"] ∧
    (ps ≠ [] → connectingFilter isf hsy ps ≠ []) ∧
    (connectingFilter isf hsy ps).count "AND" = ps.count "AND" ∧
    (connectingFilter isf hsy ps).count "OR" = ps.count "OR" ∧
    (isf = true → (connectingFilter isf hsy ps).count "FOR" = ps.count "FOR") ∧
    (connectingFilter isf hsy ps ≠ ps →
      ∃ q, q ∈ connectingFilter isf hsy ps ∧
        (connectingTentative isf hsy).contains q = false) := by
  have hcf : connectingFilter isf hsy ps =
      if (ps.filter (fun p => !(connectingTentative isf hsy).contains p)).length > 0 then
        ps.filter (fun p => !(connectingTentative isf hsy).contains p)
      else ps := rfl
  by_cases hc :
      (ps.filter (fun p => !(connectingTentative isf hsy).contains p)).length > 0
  · have hres : connectingFilter isf hsy ps =
        ps.filter (fun p => !(connectingTentative isf hsy).contains p) := by
      rw [hcf, if_pos hc]
    refine ⟨?_, tentative_sublist isf hsy, ?_, ?_, ?_, ?_, ?_⟩
    · intro p hp hnot
      rw [hres] at hnot
      by_cases hcon : (connectingTentative isf hsy).contains p = true
      · exact hcon
      · exfalso
        apply hnot
        apply List.mem_filter.mpr
        refine ⟨hp, ?_⟩
        have hfalse : (connectingTentative isf hsy).contains p = false :=
          Bool.eq_false_iff.mpr hcon
        rw [hfalse]
        rfl
    · intro _
      rw [hres]
      exact List.length_pos.mp hc
    · rw [hres]
      exact count_filter_of_pred (by rw [tentative_not_and]; rfl)
    · rw [hres]
      exact count_filter_of_pred (by rw [tentative_not_or]; rfl)
    · intro hisf
      subst hisf
      rw [hres]
      exact count_filter_of_pred (by rw [tentative_not_for]; rfl)
    · intro _
      rw [hres]
      obtain ⟨q, hq⟩ := List.exists_mem_of_length_pos hc
      refine ⟨q, hq, ?_⟩
      have := (List.mem_filter.mp hq).2
      simpa using this
  · have hres : connectingFilter isf hsy ps = ps := by
      rw [hcf, if_neg hc]
    refine ⟨?_, tentative_sublist isf hsy, ?_, ?_, ?_, ?_, ?_⟩
    · intro p hp hnot
      rw [hres] at hnot
      exact absurd hp hnot
    · intro h
      rw [hres]
      exact h
    · rw [hres]
    · rw [hres]
    · intro _
      rw [hres]
    · intro h
      rw [hres] at h
      exact absurd rfl h

/-- C6 witness: the theorem applied to the token sequence of
"ARABIC LETTER ALEF WITH MADDA ABOVE" after case filtering, where WITH is
removed and content remains. -/
theorem c6_witness :
    connectingFilter false false ["ALEF", "WITH", "MADDA", "ABOVE"] ≠ [] :=
  (c6_connecting_words false false ["ALEF", "WITH", "MADDA", "ABOVE"]).2.2.1
    (by decide)

/-- C7: the casing engine renders the first token unchanged for a detected
ligature, title-cased under the capital flag, lower-cased otherwise, and
every subsequent token title-cased, all concatenated with no separator;
the ligature test is exactly: length 2 or 3, fully upper-case, capital
flag set, all alphabetic, Latin script; and the capital flag is exactly
"the original name contains the word CAPITAL". -/
theorem c7_casing_engine :
    (∀ (lig isCap : Bool) (first : String) (rest : List String),
      assembleCamel lig isCap first rest =
        (if lig then first else if isCap then pyCapitalize first else pyLower first) ++
          strConcat (rest.map pyCapitalize)) ∧
    (∀ (first : String) (isCap : Bool) (sfx : String),
      isMultiLetterLigature first isCap sfx = true ↔
        ((first.length = 2 ∨ first.length = 3) ∧ pyIsUpper first = true ∧
          isCap = true ∧ first.data.all pyIsAlphaChar = true ∧ sfx = "-lat")) ∧
    (∀ name : String, isCapitalFlag name = (pySplit name).contains "CAPITAL") := by
  refine ⟨?_, ?_, fun _ => rfl⟩
  · intro lig isCap first rest
    unfold assembleCamel
    dsimp only
    exact foldl_append_eq_concat rest _
  · intro first isCap sfx
    unfold isMultiLetterLigature
    simp [Bool.and_eq_true, Bool.or_eq_true_iff, beq_iff_eq, and_assoc]

/-- C7 witness: the casing equation at the tokens of
"ARABIC LETTER ALEF WITH MADDA ABOVE". -/
theorem c7_witness :
    assembleCamel false false "ALEF" ["MADDA", "ABOVE"] =
      (if false then "ALEF"
       else if false then pyCapitalize "ALEF" else pyLower "ALEF") ++
        strConcat (["MADDA", "ABOVE"].map pyCapitalize) :=
  c7_casing_engine.1 false false "ALEF" ["MADDA", "ABOVE"]

/-- C8: when the detected script suffix is Arabic and the assembled body
(after all other suffix words) ends in "tan", the ending is replaced by
"Tanween" before the script suffix is appended; in particular
"ARABIC FATHATAN" yields "fathaTanween-ar". -/
theorem c8_tanween :
    (∀ name : String, scriptSuffixOf name = "-ar" →
      pyEndsWith (bodyWithWords name) "tan" = true →
      glyphNameOf name =
        String.mk ((bodyWithWords name).data.take
          ((bodyWithWords name).data.length - 3)) ++ "Tanween" ++ "-ar") ∧
    glyph_data_for_unicode 1611 (some [("Name", "ARABIC FATHATAN")]) =
      "fathaTanween-ar" := by
  constructor
  · intro name hs he
    unfold glyphNameOf tanweenRewrite
    rw [hs, he]
    rw [if_pos (by rfl)]
  · decide

/-- C8 witness: the tanween rewrite fires on "ARABIC FATHATAN". -/
theorem c8_witness :
    glyphNameOf "ARABIC FATHATAN" =
      String.mk ((bodyWithWords "ARABIC FATHATAN").data.take
        ((bodyWithWords "ARABIC FATHATAN").data.length - 3)) ++ "Tanween" ++ "-ar" :=
  c8_tanween.1 "ARABIC FATHATAN" (by decide) (by decide)

/-- C9: the static script-suffix table maps no two designations to the same
suffix code: the list of suffix values has no duplicate (and neither does
the list of designations). -/
theorem c9_unique_suffixes :
    (SCRIPT_SUFFIXES.map Prod.snd).Nodup ∧ (SCRIPT_SUFFIXES.map Prod.fst).Nodup := by
  constructor
  · decide
  · decide

/-- C10: the function is total over every codepoint and provider result: a
missing record, an empty record, a record without a "Name" key, an empty
name, and a name whose tokens are all eliminated each take the fallback
return, and the non-fallback branch is reached only with a non-empty final
token list (the shallow embedding is a total function, so no path can
raise). -/
theorem c10_totality :
    (∀ cp : Nat, glyph_data_for_unicode cp none = fallbackName cp) ∧
    (∀ cp : Nat, glyph_data_for_unicode cp (some []) = fallbackName cp) ∧
    (∀ (cp : Nat) (r : List (String × String)), r.lookup "Name" = none →
      glyph_data_for_unicode cp (some r) = fallbackName cp) ∧
    (∀ (cp : Nat) (r : List (String × String)), r.lookup "Name" = some "" →
      glyph_data_for_unicode cp (some r) = fallbackName cp) ∧
    (∀ (cp : Nat) (r : List (String × String)) (name : String),
      r.lookup "Name" = some name → (finalParts name).isEmpty = true →
      glyph_data_for_unicode cp (some r) = fallbackName cp) ∧
    (∀ (cp : Nat) (r : List (String × String)) (name : String),
      r.lookup "Name" = some name → (finalParts name).isEmpty = false →
      glyph_data_for_unicode cp (some r) = glyphNameOf name) := by
  refine ⟨fun _ => rfl, fun _ => rfl, ?_, ?_, ?_, ?_⟩
  · intro cp r hlook
    rw [glyph_some_cases, hlook]
  · intro cp r hlook
    rw [glyph_some_cases, hlook]
    rfl
  · intro cp r name hlook hempty
    rw [glyph_some_cases, hlook]
    show (if (finalParts name).isEmpty then fallbackName cp else glyphNameOf name) =
      fallbackName cp
    rw [hempty]
    rfl
  · intro cp r name hlook hne
    rw [glyph_some_cases, hlook]
    show (if (finalParts name).isEmpty then fallbackName cp else glyphNameOf name) =
      glyphNameOf name
    rw [hne]
    rfl

/-- C10 witness: the totality theorem applied to concrete provider
results of every kind. -/
theorem c10_witness :
    glyph_data_for_unicode 3 (some [("Block", "X")]) = fallbackName 3 ∧
    glyph_data_for_unicode 4 (some [("Name", "")]) = fallbackName 4 ∧
    glyph_data_for_unicode 5 (some [("Name", "CAPITAL")]) = fallbackName 5 ∧
    glyph_data_for_unicode 97 (some [("Name", "LATIN SMALL LETTER A")]) =
      glyphNameOf "LATIN SMALL LETTER A" := by
  refine ⟨c10_totality.2.2.1 3 [("Block", "X")] rfl,
    c10_totality.2.2.2.1 4 [("Name", "")] rfl,
    c10_totality.2.2.2.2.1 5 [("Name", "CAPITAL")] "CAPITAL" rfl (by decide),
    c10_totality.2.2.2.2.2 97 [("Name", "LATIN SMALL LETTER A")]
      "LATIN SMALL LETTER A" rfl (by decide)⟩

end ContextGlyphData
